import Mathlib

/-!
Verification of the Connect-Four MCTS engine (`game.py`, `mcts.py`).

The Python code is shallowly embedded: every mutating method becomes a pure
function that returns the updated state alongside its result, NumPy boards
become `List (List Cell)` values, Python `random.choice` becomes an explicit
stream of choice indices (`List Nat`, each entry taken modulo the length of
the list being chosen from), and the unbounded rollout `while` loop takes an
explicit fuel parameter.  Names follow the source (leading underscores of
private Python methods are dropped).
-/

/-- A board cell: `" "`, `"R"` or `"Y"` in the Python source. -/
inductive Cell : Type where
  | empty : Cell
  | R : Cell
  | Y : Cell
deriving DecidableEq, Repr

/-- The 6x7 NumPy array `self.board` is embedded as a list of 6 rows of 7 cells. -/
abbrev Board : Type := List (List Cell)

/-- Read `board[r][c]`; out-of-range reads (never performed by the embedded code
on well-formed boards) default to the empty cell. -/
def bget (b : Board) (r c : Nat) : Cell :=
  (b.getD r []).getD c Cell.empty

/-- Write `board[r][c] = v`. -/
def bset (b : Board) (r c : Nat) (v : Cell) : Board :=
  b.set r ((b.getD r []).set c v)

/-- The fresh empty board built by `Connect4.__init__`. -/
def emptyBoard : Board :=
  List.replicate 6 (List.replicate 7 Cell.empty)

/-- A board is a well-formed 6x7 grid. -/
def BoardWF (b : Board) : Prop :=
  b.length = 6 ∧ ∀ row ∈ b, row.length = 7

instance : DecidablePred BoardWF := fun b => by
  unfold BoardWF; infer_instance

/-- Embedding of `Connect4._get_available_moves(board)`: the columns of
`range(7)` whose top cell is empty, in ascending order.  The Python method's
side effect on `self.game_over` is applied separately by the callers that
invoke it on a live state (see `available_st`). -/
def get_available_moves (b : Board) : List Int :=
  ((List.range 7).filter (fun c => decide (bget b 0 c = Cell.empty))).map Int.ofNat

/-- The fields of the Python `Connect4` object. -/
structure GameState : Type where
  board : Board
  game_over : Bool
  player_list : List Cell
  current_turn : Nat
  available_moves : List Int
  sum : Nat
deriving DecidableEq, Repr

/-- State produced by `Connect4.__init__`. -/
def Connect4.init : GameState :=
  { board := emptyBoard
    game_over := false
    player_list := [Cell.R, Cell.Y]
    current_turn := 0
    available_moves := get_available_moves emptyBoard
    sum := 0 }

/-- Embedding of `Connect4.copy()`.  All fields are value-copied except `sum`,
which the Python `copy` leaves at the `0` installed by `Connect4.__init__`. -/
def Connect4.copy (s : GameState) : GameState :=
  { board := s.board
    game_over := s.game_over
    player_list := s.player_list
    current_turn := s.current_turn
    available_moves := s.available_moves
    sum := 0 }

/-- `self.player_list[self.current_turn % 2]`: the player whose turn it is. -/
def currentPlayer (s : GameState) : Cell :=
  s.player_list.getD (s.current_turn % 2) Cell.empty

/-- `self.player_list[(self.current_turn + 1) % 2]`: the other player. -/
def otherPlayer (s : GameState) : Cell :=
  s.player_list.getD ((s.current_turn + 1) % 2) Cell.empty

/-- `state.player_list[(state.current_turn - 1) % 2]` with Python's
nonnegative `%` on the possibly negative `current_turn - 1`. -/
def playerJustMoved (s : GameState) : Cell :=
  s.player_list.getD (((s.current_turn : Int) - 1) % 2).toNat Cell.empty

/-- Calling `self._get_available_moves()` on a live state: returns the move
list and applies the method's side effect (`self.game_over = True` when the
list is empty). -/
def available_st (s : GameState) : List Int × GameState :=
  let moves := get_available_moves s.board
  (moves, { s with game_over := if moves.isEmpty then true else s.game_over })

/-- Calling `self._get_available_moves(b)` with an explicit board argument:
the move list comes from `b` but the side effect still lands on `self`. -/
def available_st_board (s : GameState) (b : Board) : List Int × GameState :=
  let moves := get_available_moves b
  (moves, { s with game_over := if moves.isEmpty then true else s.game_over })

/-- Embedding of `Connect4.make_move(move)`.  The method first refreshes
`self.available_moves` (with `_get_available_moves`'s side effect on
`game_over`), then, if `move` is available, drops the current player's token
into the lowest empty cell of that column (`np.flip` of the transposed row
scans the column bottom-up) and advances the turn. -/
def make_move (s : GameState) (move : Int) : Bool × GameState :=
  let avail := get_available_moves s.board
  let s1 : GameState :=
    { s with available_moves := avail
             game_over := if avail.isEmpty then true else s.game_over }
  if move ∈ avail then
    match (List.range 6).find? (fun n => decide (bget s1.board (5 - n) move.toNat = Cell.empty)) with
    | some n =>
        (true,
         { s1 with board := bset s1.board (5 - n) move.toNat
                     (s1.player_list.getD (s1.current_turn % 2) Cell.empty)
                   current_turn := s1.current_turn + 1 })
    | none => (false, s1)
  else (false, s1)

/-- Embedding of `Connect4.simulate_move(move, player, board)` with the two
optional arguments made explicit (callers pass `currentPlayer s` and `s.board`
for the Python defaults).  Pure: scans rows 5 down to 0 for the first empty
cell of the column and fills it on a copy. -/
def simulate_move (b : Board) (player : Cell) (move : Int) : Board :=
  match ((List.range 6).reverse).find? (fun r => decide (bget b r move.toNat = Cell.empty)) with
  | some r => bset b r move.toNat player
  | none => b

/-- One 4-cell window test: `a == b == c == d and a != " "`, returning the
token on success exactly as each `return board[r][c]` does. -/
def lineWin (a b c d : Cell) : Option Cell :=
  if a = b ∧ b = c ∧ c = d ∧ a ≠ Cell.empty then some a else none

/-- The horizontal scan of `check_win_on_board`: `c in range(4)` outer,
`r in range(6)` inner, first hit returned. -/
def horizWin (b : Board) : Option Cell :=
  (List.range 4).findSome? fun c =>
    (List.range 6).findSome? fun r =>
      lineWin (bget b r c) (bget b r (c+1)) (bget b r (c+2)) (bget b r (c+3))

/-- The vertical scan: `c in range(7)` outer, `r in range(3)` inner. -/
def vertWin (b : Board) : Option Cell :=
  (List.range 7).findSome? fun c =>
    (List.range 3).findSome? fun r =>
      lineWin (bget b r c) (bget b (r+1) c) (bget b (r+2) c) (bget b (r+3) c)

/-- The positively sloped diagonal scan: `c in range(4)`, `r in range(3)`. -/
def diagPosWin (b : Board) : Option Cell :=
  (List.range 4).findSome? fun c =>
    (List.range 3).findSome? fun r =>
      lineWin (bget b r c) (bget b (r+1) (c+1)) (bget b (r+2) (c+2)) (bget b (r+3) (c+3))

/-- The negatively sloped diagonal scan: `c in range(4)`, `r in range(3, 6)`. -/
def diagNegWin (b : Board) : Option Cell :=
  (List.range 4).findSome? fun c =>
    (List.range 3).findSome? fun i =>
      lineWin (bget b (i+3) c) (bget b (i+3-1) (c+1)) (bget b (i+3-2) (c+2)) (bget b (i+3-3) (c+3))

/-- Embedding of `Connect4.check_win_on_board(board)`: the four scans in
source order, the first winner found is returned, `None` otherwise. -/
def check_win_on_board (b : Board) : Option Cell :=
  ((horizWin b).orElse fun _ =>
    (vertWin b).orElse fun _ =>
      (diagPosWin b).orElse fun _ => diagNegWin b)

/-- Embedding of `Connect4._check_winstate()`: wraps `check_win_on_board` on
the live board and sets `game_over` when a winner exists.  The Python method
returns the winner string or `False`; both `None` and `False` map to `none`. -/
def check_winstate (s : GameState) : Option Cell × GameState :=
  match check_win_on_board s.board with
  | some w => (some w, { s with game_over := true })
  | none => (none, s)

/-- Sequentially apply `make_move` for a list of columns (test harness for
reachable states; each call mirrors one `g.make_move(c)` in real play). -/
def applyMoves (s : GameState) (moves : List Int) : GameState :=
  moves.foldl (fun st m => (make_move st m).2) s

example : (make_move Connect4.init 3).1 = true := by decide
example : bget (make_move Connect4.init 3).2.board 5 3 = Cell.R := by decide
example :
    check_win_on_board (applyMoves Connect4.init [0, 6, 1, 6, 2, 5, 3]).board = some Cell.R := by
  decide
example : (applyMoves Connect4.init [0, 6, 1, 6, 2, 5, 3]).game_over = false := by decide

/-- Specification-side predicate for claim C1: token `t` is non-empty and
occupies four contiguous cells of some row, some column, or some diagonal
(either slope) of the board. -/
def hasLine (b : Board) (t : Cell) : Prop :=
  t ≠ Cell.empty ∧
  ((∃ r < 6, ∃ c < 4, bget b r c = t ∧ bget b r (c+1) = t ∧
      bget b r (c+2) = t ∧ bget b r (c+3) = t) ∨
   (∃ c < 7, ∃ r < 3, bget b r c = t ∧ bget b (r+1) c = t ∧
      bget b (r+2) c = t ∧ bget b (r+3) c = t) ∨
   (∃ r < 3, ∃ c < 4, bget b r c = t ∧ bget b (r+1) (c+1) = t ∧
      bget b (r+2) (c+2) = t ∧ bget b (r+3) (c+3) = t) ∨
   (∃ r, 3 ≤ r ∧ r < 6 ∧ ∃ c < 4, bget b r c = t ∧ bget b (r-1) (c+1) = t ∧
      bget b (r-2) (c+2) = t ∧ bget b (r-3) (c+3) = t))

lemma lineWin_some_to {a b c d t : Cell} (h : lineWin a b c d = some t) :
    a = t ∧ b = t ∧ c = t ∧ d = t ∧ t ≠ Cell.empty := by
  unfold lineWin at h
  split at h
  · rename_i hcond
    obtain ⟨hab, hbc, hcd, hne⟩ := hcond
    injection h with h
    subst h
    exact ⟨rfl, hab.symm, (hab.trans hbc).symm, (hab.trans (hbc.trans hcd)).symm, hne⟩
  · exact absurd h (by simp)

lemma lineWin_some_of {a b c d t : Cell} (ha : a = t) (hb : b = t) (hc : c = t)
    (hd : d = t) (hne : t ≠ Cell.empty) : lineWin a b c d = some t := by
  subst ha hb hc hd
  simp [lineWin, hne]

lemma horizWin_some {b : Board} {t : Cell} (h : horizWin b = some t) :
    t ≠ Cell.empty ∧ ∃ r < 6, ∃ c < 4, bget b r c = t ∧ bget b r (c+1) = t ∧
      bget b r (c+2) = t ∧ bget b r (c+3) = t := by
  obtain ⟨c, hc, h2⟩ := List.exists_of_findSome?_eq_some h
  obtain ⟨r, hr, h3⟩ := List.exists_of_findSome?_eq_some h2
  obtain ⟨h1, h2', h3', h4', hne⟩ := lineWin_some_to h3
  exact ⟨hne, r, List.mem_range.1 hr, c, List.mem_range.1 hc, h1, h2', h3', h4'⟩

lemma vertWin_some {b : Board} {t : Cell} (h : vertWin b = some t) :
    t ≠ Cell.empty ∧ ∃ c < 7, ∃ r < 3, bget b r c = t ∧ bget b (r+1) c = t ∧
      bget b (r+2) c = t ∧ bget b (r+3) c = t := by
  obtain ⟨c, hc, h2⟩ := List.exists_of_findSome?_eq_some h
  obtain ⟨r, hr, h3⟩ := List.exists_of_findSome?_eq_some h2
  obtain ⟨h1, h2', h3', h4', hne⟩ := lineWin_some_to h3
  exact ⟨hne, c, List.mem_range.1 hc, r, List.mem_range.1 hr, h1, h2', h3', h4'⟩

lemma diagPosWin_some {b : Board} {t : Cell} (h : diagPosWin b = some t) :
    t ≠ Cell.empty ∧ ∃ r < 3, ∃ c < 4, bget b r c = t ∧ bget b (r+1) (c+1) = t ∧
      bget b (r+2) (c+2) = t ∧ bget b (r+3) (c+3) = t := by
  obtain ⟨c, hc, h2⟩ := List.exists_of_findSome?_eq_some h
  obtain ⟨r, hr, h3⟩ := List.exists_of_findSome?_eq_some h2
  obtain ⟨h1, h2', h3', h4', hne⟩ := lineWin_some_to h3
  exact ⟨hne, r, List.mem_range.1 hr, c, List.mem_range.1 hc, h1, h2', h3', h4'⟩

lemma diagNegWin_some {b : Board} {t : Cell} (h : diagNegWin b = some t) :
    t ≠ Cell.empty ∧ ∃ r, 3 ≤ r ∧ r < 6 ∧ ∃ c < 4, bget b r c = t ∧
      bget b (r-1) (c+1) = t ∧ bget b (r-2) (c+2) = t ∧ bget b (r-3) (c+3) = t := by
  obtain ⟨c, hc, h2⟩ := List.exists_of_findSome?_eq_some h
  obtain ⟨i, hi, h3⟩ := List.exists_of_findSome?_eq_some h2
  obtain ⟨h1, h2', h3', h4', hne⟩ := lineWin_some_to h3
  refine ⟨hne, i + 3, by omega, by have := List.mem_range.1 hi; omega,
    c, List.mem_range.1 hc, h1, h2', h3', h4'⟩

lemma horizWin_ne_none {b : Board} {t : Cell} {r c : Nat} (hr : r < 6) (hc : c < 4)
    (h1 : bget b r c = t) (h2 : bget b r (c+1) = t) (h3 : bget b r (c+2) = t)
    (h4 : bget b r (c+3) = t) (hne : t ≠ Cell.empty) : horizWin b ≠ none := by
  intro hnone
  rw [horizWin, List.findSome?_eq_none_iff] at hnone
  have hinner := hnone c (List.mem_range.2 hc)
  rw [List.findSome?_eq_none_iff] at hinner
  have := hinner r (List.mem_range.2 hr)
  rw [lineWin_some_of h1 h2 h3 h4 hne] at this
  exact Option.some_ne_none t this

lemma vertWin_ne_none {b : Board} {t : Cell} {r c : Nat} (hc : c < 7) (hr : r < 3)
    (h1 : bget b r c = t) (h2 : bget b (r+1) c = t) (h3 : bget b (r+2) c = t)
    (h4 : bget b (r+3) c = t) (hne : t ≠ Cell.empty) : vertWin b ≠ none := by
  intro hnone
  rw [vertWin, List.findSome?_eq_none_iff] at hnone
  have hinner := hnone c (List.mem_range.2 hc)
  rw [List.findSome?_eq_none_iff] at hinner
  have := hinner r (List.mem_range.2 hr)
  rw [lineWin_some_of h1 h2 h3 h4 hne] at this
  exact Option.some_ne_none t this

lemma diagPosWin_ne_none {b : Board} {t : Cell} {r c : Nat} (hr : r < 3) (hc : c < 4)
    (h1 : bget b r c = t) (h2 : bget b (r+1) (c+1) = t) (h3 : bget b (r+2) (c+2) = t)
    (h4 : bget b (r+3) (c+3) = t) (hne : t ≠ Cell.empty) : diagPosWin b ≠ none := by
  intro hnone
  rw [diagPosWin, List.findSome?_eq_none_iff] at hnone
  have hinner := hnone c (List.mem_range.2 hc)
  rw [List.findSome?_eq_none_iff] at hinner
  have := hinner r (List.mem_range.2 hr)
  rw [lineWin_some_of h1 h2 h3 h4 hne] at this
  exact Option.some_ne_none t this

lemma diagNegWin_ne_none {b : Board} {t : Cell} {r c : Nat} (hr3 : 3 ≤ r) (hr6 : r < 6)
    (hc : c < 4) (h1 : bget b r c = t) (h2 : bget b (r-1) (c+1) = t)
    (h3 : bget b (r-2) (c+2) = t) (h4 : bget b (r-3) (c+3) = t) (hne : t ≠ Cell.empty) :
    diagNegWin b ≠ none := by
  intro hnone
  rw [diagNegWin, List.findSome?_eq_none_iff] at hnone
  have hinner := hnone c (List.mem_range.2 hc)
  rw [List.findSome?_eq_none_iff] at hinner
  have := hinner (r - 3) (List.mem_range.2 (by omega))
  have hr : r - 3 + 3 = r := by omega
  rw [hr] at this
  rw [lineWin_some_of h1 h2 h3 h4 hne] at this
  exact Option.some_ne_none t this

lemma someOrElse {α : Type} (a : α) (f : Unit → Option α) : (some a).orElse f = some a := rfl

lemma noneOrElse {α : Type} (f : Unit → Option α) : (Option.none).orElse f = f () := rfl

lemma check_win_cases {b : Board} {t : Cell} (h : check_win_on_board b = some t) :
    horizWin b = some t ∨ vertWin b = some t ∨ diagPosWin b = some t ∨
      diagNegWin b = some t := by
  unfold check_win_on_board at h
  cases hh : horizWin b
  · rw [hh, noneOrElse] at h
    cases hv : vertWin b
    · rw [hv, noneOrElse] at h
      cases hp : diagPosWin b
      · rw [hp, noneOrElse] at h
        exact Or.inr (Or.inr (Or.inr h))
      · rw [hp, someOrElse] at h
        exact Or.inr (Or.inr (Or.inl h))
    · rw [hv, someOrElse] at h
      exact Or.inr (Or.inl h)
  · rw [hh, someOrElse] at h
    exact Or.inl h

lemma check_win_isSome_of_scan {b : Board}
    (h : horizWin b ≠ none ∨ vertWin b ≠ none ∨ diagPosWin b ≠ none ∨
      diagNegWin b ≠ none) : check_win_on_board b ≠ none := by
  unfold check_win_on_board
  cases hh : horizWin b <;> cases hv : vertWin b <;> cases hp : diagPosWin b <;>
    cases hn : diagNegWin b <;>
    simp_all [someOrElse, noneOrElse]

/-- C1: `check_win_on_board` returns a token exactly when four contiguous
cells in some row, column, or diagonal (either slope) hold that same
non-empty token; every returned token heads such a line, the empty cell value
is never returned, and `none` is returned exactly when no line exists. -/
theorem check_win_on_board_correct (b : Board) :
    (∀ t, check_win_on_board b = some t → hasLine b t) ∧
    ((∃ t, hasLine b t) → ∃ t, check_win_on_board b = some t) ∧
    check_win_on_board b ≠ some Cell.empty ∧
    ((¬ ∃ t, hasLine b t) → check_win_on_board b = none) := by
  have forward : ∀ t, check_win_on_board b = some t → hasLine b t := by
    intro t h
    rcases check_win_cases h with hh | hv | hp | hn
    · obtain ⟨hne, hrest⟩ := horizWin_some hh
      exact ⟨hne, Or.inl hrest⟩
    · obtain ⟨hne, hrest⟩ := vertWin_some hv
      exact ⟨hne, Or.inr (Or.inl hrest)⟩
    · obtain ⟨hne, hrest⟩ := diagPosWin_some hp
      exact ⟨hne, Or.inr (Or.inr (Or.inl hrest))⟩
    · obtain ⟨hne, hrest⟩ := diagNegWin_some hn
      exact ⟨hne, Or.inr (Or.inr (Or.inr hrest))⟩
  have backward : (∃ t, hasLine b t) → ∃ t, check_win_on_board b = some t := by
    rintro ⟨t, hne, hcase⟩
    have hsome : check_win_on_board b ≠ none := by
      apply check_win_isSome_of_scan
      rcases hcase with ⟨r, hr, c, hc, h1, h2, h3, h4⟩ |
        ⟨c, hc, r, hr, h1, h2, h3, h4⟩ | ⟨r, hr, c, hc, h1, h2, h3, h4⟩ |
        ⟨r, hr3, hr6, c, hc, h1, h2, h3, h4⟩
      · exact Or.inl (horizWin_ne_none hr hc h1 h2 h3 h4 hne)
      · exact Or.inr (Or.inl (vertWin_ne_none hc hr h1 h2 h3 h4 hne))
      · exact Or.inr (Or.inr (Or.inl (diagPosWin_ne_none hr hc h1 h2 h3 h4 hne)))
      · exact Or.inr (Or.inr (Or.inr (diagNegWin_ne_none hr3 hr6 hc h1 h2 h3 h4 hne)))
    cases hcw : check_win_on_board b
    · exact absurd hcw hsome
    · exact ⟨_, rfl⟩
  refine ⟨forward, backward, ?_, ?_⟩
  · intro h
    obtain ⟨hne, _⟩ := forward Cell.empty h
    exact hne rfl
  · intro hno
    cases hcw : check_win_on_board b with
    | none => rfl
    | some t => exact absurd ⟨t, forward t hcw⟩ hno

/-- A reachable state whose cached `available_moves` is stale: six moves into
column 0 fill it, but the cache was last refreshed before the sixth token
landed and still lists column 0. -/
def stateColFull : GameState := applyMoves Connect4.init [0, 0, 0, 0, 0, 0]

/-- C2 counterexample: calling `make_move` with the unavailable column 0 on
`stateColFull` returns `False` as claimed, but the state does mutate — the
method unconditionally refreshes the `available_moves` cache before testing
the move, so the post state differs from the pre state. -/
theorem make_move_unavailable_mutates :
    (0 : Int) ∉ get_available_moves stateColFull.board ∧
    (make_move stateColFull 0).1 = false ∧
    (make_move stateColFull 0).2 ≠ stateColFull ∧
    (make_move stateColFull 0).2.available_moves ≠ stateColFull.available_moves := by
  decide

/-- C2 amended: `make_move` on an unavailable column (full or out of range)
returns `False` and leaves the board, the turn index, the player list and
`sum` unchanged; but it always refreshes `available_moves` to the recomputed
legal-move list and sets `game_over` when that list is empty. -/
theorem make_move_unavailable_frame (s : GameState) (move : Int)
    (h : move ∉ get_available_moves s.board) :
    (make_move s move).1 = false ∧
    (make_move s move).2.board = s.board ∧
    (make_move s move).2.current_turn = s.current_turn ∧
    (make_move s move).2.player_list = s.player_list ∧
    (make_move s move).2.sum = s.sum ∧
    (make_move s move).2.available_moves = get_available_moves s.board ∧
    (make_move s move).2.game_over =
      (if (get_available_moves s.board).isEmpty then true else s.game_over) := by
  unfold make_move
  simp only [if_neg h]
  simp

/-- Witness for `make_move_unavailable_frame` at the initial state and the
out-of-range column 7. -/
theorem make_move_unavailable_frame_witness :
    (7 : Int) ∉ get_available_moves Connect4.init.board ∧
    ((make_move Connect4.init 7).1 = false ∧
     (make_move Connect4.init 7).2.board = Connect4.init.board ∧
     (make_move Connect4.init 7).2.current_turn = Connect4.init.current_turn ∧
     (make_move Connect4.init 7).2.player_list = Connect4.init.player_list ∧
     (make_move Connect4.init 7).2.sum = Connect4.init.sum ∧
     (make_move Connect4.init 7).2.available_moves =
       get_available_moves Connect4.init.board ∧
     (make_move Connect4.init 7).2.game_over =
       (if (get_available_moves Connect4.init.board).isEmpty then true
        else Connect4.init.game_over)) :=
  ⟨by decide, make_move_unavailable_frame Connect4.init 7 (by decide)⟩

/-- A node of the MCTS tree (`MCTSNode` in `mcts.py`).  The Python object's
`parent` back-reference is represented implicitly: backpropagation walks the
recursion stack of `simIter` instead of parent pointers. -/
inductive MCTSNode : Type where
  | node (state : GameState) (move : Option Int) (wins : ℚ) (visits : Nat)
      (children : List MCTSNode) (untried_moves : List Int)
      (player_just_moved : Cell) : MCTSNode

def MCTSNode.state : MCTSNode → GameState
  | .node st _ _ _ _ _ _ => st

def MCTSNode.move : MCTSNode → Option Int
  | .node _ mv _ _ _ _ _ => mv

def MCTSNode.wins : MCTSNode → ℚ
  | .node _ _ w _ _ _ _ => w

def MCTSNode.visits : MCTSNode → Nat
  | .node _ _ _ v _ _ _ => v

def MCTSNode.children : MCTSNode → List MCTSNode
  | .node _ _ _ _ ch _ _ => ch

def MCTSNode.untried_moves : MCTSNode → List Int
  | .node _ _ _ _ _ un _ => un

def MCTSNode.player_just_moved : MCTSNode → Cell
  | .node _ _ _ _ _ _ p => p

instance : Inhabited MCTSNode :=
  ⟨.node Connect4.init none 0 0 [] [] Cell.empty⟩

def MCTSNode.setChildren : MCTSNode → List MCTSNode → MCTSNode
  | .node st mv w v _ un p, ch => .node st mv w v ch un p

def MCTSNode.setUntried : MCTSNode → List Int → MCTSNode
  | .node st mv w v ch _ p, un => .node st mv w v ch un p

/-- Embedding of `MCTSNode.__init__(state, parent, move)`: zeroed statistics,
no children; if `state._check_winstate()` reports a winner the untried-move
set is empty, otherwise it is `get_legal_moves(state)`
(= `state._get_available_moves()`, whose `game_over` side effect lands on the
stored state). -/
def MCTSNode.init (state : GameState) (move : Option Int) : MCTSNode :=
  match check_winstate state with
  | (some _, st1) => .node st1 move 0 0 [] [] (playerJustMoved st1)
  | (none, st1) =>
      let (mvs, st2) := available_st st1
      .node st2 move 0 0 [] mvs (playerJustMoved st2)

/-- Embedding of `MCTSNode.update(result)`: one more visit, `result` added to
the win score. -/
def MCTSNode.update : MCTSNode → ℚ → MCTSNode
  | .node st mv w v ch un p, result => .node st mv (w + result) (v + 1) ch un p

/-- The credit computed in the backpropagation loop of `get_best_move`: 1 if
this node's `player_just_moved` is the winner, 0 if the other player won,
0.5 for a draw (`winner` falsy). -/
def backpropResult (pjm : Cell) (winner : Option Cell) : ℚ :=
  match winner with
  | some w => if pjm = w then 1 else 0
  | none => 1/2

/-- One backpropagation step at a node: `node.update(credit)`. -/
def MCTSNode.updateWith (n : MCTSNode) (winner : Option Cell) : MCTSNode :=
  n.update (backpropResult n.player_just_moved winner)

/-- The UCT key of `uct_select_child`, idealized over the extended reals:
`wins / visits + C * sqrt(ln(parent_visits) / visits)` for a visited child
and `float('inf')` (here `⊤`) for an unvisited one. -/
noncomputable def uctKey (c_param : ℝ) (parentVisits : Nat) (ch : MCTSNode) : EReal :=
  if 0 < ch.visits then
    (((ch.wins : ℝ) / (ch.visits : ℝ) +
      c_param * Real.sqrt (Real.log (parentVisits : ℝ) / (ch.visits : ℝ)) : ℝ) : EReal)
  else ⊤

/-- Ordering of child positions by their UCT keys (the `key=` of the
`sorted` call). -/
def uctIdxRel (c_param : ℝ) (n : MCTSNode) : Nat → Nat → Prop :=
  fun i j => uctKey c_param n.visits (n.children.getD i default) ≤
    uctKey c_param n.visits (n.children.getD j default)

/-- Python's `sorted` is an ascending stable sort; `s[-1]` is its last
element.  Child identity is modelled by position, so the sort permutes the
indices `0..len(children)-1` by the children's UCT keys. -/
noncomputable def uct_sorted_indices (c_param : ℝ) (n : MCTSNode) : List Nat :=
  @List.insertionSort Nat (uctIdxRel c_param n) (Classical.decRel _)
    (List.range n.children.length)

/-- Index of the child picked by `uct_select_child` (`s[-1]` of the stable
ascending sort). -/
noncomputable def uct_select_idx (c_param : ℝ) (n : MCTSNode) : Nat :=
  (uct_sorted_indices c_param n).getLastD 0

/-- Embedding of `MCTSNode.uct_select_child(exploration_constant)`.  `none`
models the `IndexError` that `s[-1]` raises on a childless node. -/
noncomputable def MCTSNode.uct_select_child (c_param : ℝ) (n : MCTSNode) : Option MCTSNode :=
  n.children.get? (uct_select_idx c_param n)

/-- Draw the next `random.choice` index from the explicit choice stream. -/
def nextChoice : List Nat → Nat × List Nat
  | [] => (0, [])
  | n :: rest => (n, rest)

/-- Embedding of the rollout `while` loop of `get_best_move` (step 3): while
the working state is not flagged `game_over`, fetch the legal moves (side
effect included), stop if there are none, otherwise apply a randomly chosen
move and re-check the win state.  The loop is fuelled; 43 steps always
suffice on a real board, and every theorem quantifies over the fuel. -/
def rollout : Nat → GameState → List Nat → GameState × List Nat
  | 0, s, rng => (s, rng)
  | fuel+1, s, rng =>
    if s.game_over then (s, rng)
    else
      let (legal_moves, s1) := available_st s
      if legal_moves.isEmpty then (s1, rng)
      else
        let (r, rng1) := nextChoice rng
        let m := legal_moves.getD (r % legal_moves.length) 0
        let (_, s2) := make_move s1 m
        let (_, s3) := check_winstate s2
        rollout fuel s3 rng1

instance decEqNil {α : Type} (l : List α) : Decidable (l = []) :=
  match l with
  | [] => isTrue rfl
  | _ :: _ => isFalse (by simp)

lemma MCTSNode.sizeOf_children_lt (n : MCTSNode) : sizeOf n.children < sizeOf n := by
  cases n with
  | node st mv w v ch un p =>
      simp only [MCTSNode.children, MCTSNode.node.sizeOf_spec]
      omega

/-- One iteration of the main MCTS loop (`for _ in range(self.simulations)`),
expressed recursively: the selection `while` loop becomes the recursive case,
expansion + rollout happen at the node where selection stops, and the
backpropagation walk up the parent chain becomes the `updateWith` calls
performed as the recursion returns.  Returns the updated subtree, the rollout
winner (`state._check_winstate()` of the final working state) and the rest of
the choice stream. -/
noncomputable def simIter (c_param : ℝ) (fuel : Nat) (n : MCTSNode)
    (state : GameState) (rng : List Nat) : MCTSNode × Option Cell × List Nat :=
  if n.untried_moves = [] ∧ n.children ≠ [] then
    -- Selection: descend into the UCT-chosen child, applying its move.
    let i := uct_select_idx c_param n
    if hi : i < n.children.length then
      let child := n.children.get ⟨i, hi⟩
      let state1 := match child.move with
        | some m => (make_move state m).2
        | none => state
      let (child1, winner, rng1) := simIter c_param fuel child state1 rng
      ((n.setChildren (n.children.set i child1)).updateWith winner, winner, rng1)
    else
      -- Unreachable: the sorted index of a nonempty children list is in range.
      (n, none, rng)
  else if n.untried_moves ≠ [] then
    -- Expansion: play one untried move, attach the child built from a copy
    -- of the working state (`node.add_child(m, state)`), then roll out.
    let (r, rng1) := nextChoice rng
    let m := n.untried_moves.getD (r % n.untried_moves.length) 0
    let state1 := (make_move state m).2
    let child := MCTSNode.init (Connect4.copy state1) (some m)
    let (stateF, rng2) := rollout fuel state1 rng1
    let winner := (check_winstate stateF).1
    let child1 := child.updateWith winner
    ((MCTSNode.setChildren (n.setUntried (n.untried_moves.erase m))
        (n.children ++ [child1])).updateWith winner, winner, rng2)
  else
    -- Terminal leaf: nothing to expand, the rollout runs directly.
    let (stateF, rng2) := rollout fuel state rng
    let winner := (check_winstate stateF).1
    (n.updateWith winner, winner, rng2)
termination_by sizeOf n
decreasing_by
  exact Nat.lt_trans (List.sizeOf_lt_of_mem (List.get_mem _ _ _))
    (MCTSNode.sizeOf_children_lt n)

/-- The main loop of `get_best_move`: `simulations` iterations, each starting
from a fresh copy of the root state. -/
noncomputable def mctsLoop (c_param : ℝ) (fuel : Nat) :
    Nat → MCTSNode → GameState → List Nat → MCTSNode × List Nat
  | 0, n, _, rng => (n, rng)
  | k+1, n, root_state, rng =>
      let state := Connect4.copy root_state
      let (n1, _, rng1) := simIter c_param fuel n state rng
      mctsLoop c_param fuel k n1 root_state rng1

/-- The block-check loop of `get_best_move` (lines 125-139): for each legal
move, simulate it, fetch the opponent's replies (side effect on the live root
state included), and keep the move if no reply wins immediately for the
opponent. -/
def safeStep (human_player : Cell) (acc : List Int × GameState) (m : Int) :
    List Int × GameState :=
  let sim_board := simulate_move acc.2.board (currentPlayer acc.2) m
  let (humans_legal_moves, s1) := available_st_board acc.2 sim_board
  let opponent_can_win := humans_legal_moves.any (fun om =>
    decide (check_win_on_board (simulate_move sim_board human_player om) = some human_player))
  (if opponent_can_win then acc.1 else acc.1 ++ [m], s1)

def safeLoop (rs : GameState) (legal_moves : List Int) (human_player : Cell) :
    List Int × GameState :=
  legal_moves.foldl (safeStep human_player) ([], rs)

/-- The pruning step of `get_best_move` (lines 142-145): if there are safe
moves, restrict the root's untried moves to those that are safe, unless that
intersection is empty. -/
def pruneRoot (n : MCTSNode) (safe_moves : List Int) : MCTSNode :=
  if safe_moves.isEmpty then n
  else
    let common_safe := n.untried_moves.filter (fun m => decide (m ∈ safe_moves))
    if common_safe.isEmpty then n else n.setUntried common_safe

/-- The root node exactly as it enters the main MCTS loop: built from a copy
of the root state, then pruned by the block check. -/
def rootAfterPruning (s : GameState) : MCTSNode :=
  let root_node := MCTSNode.init (Connect4.copy s) none
  let (legal_moves, rs1) := available_st s
  let human_player := otherPlayer rs1
  let (safe_moves, _) := safeLoop rs1 legal_moves human_player
  pruneRoot root_node safe_moves

/-- The final extraction of `get_best_move`:
`sorted(root_node.children, key=lambda c: c.visits)[-1].move`; `none` models
the `IndexError` on a childless root. -/
def bestChildMove (n : MCTSNode) : Option Int :=
  match (n.children.insertionSort (fun a b => a.visits ≤ b.visits)).getLast? with
  | some c => c.move
  | none => none

/-- Embedding of `MCTS.get_best_move(root_state)`.  Beyond the returned move,
the final value of the caller's `root_state` object is returned so that frame
claims can be stated (its only potential mutation sites are the two live
`_get_available_moves` calls of the tactical checks). -/
noncomputable def get_best_move (c_param : ℝ) (simulations fuel : Nat)
    (rng : List Nat) (root_state : GameState) : Option Int × GameState :=
  let root_node := MCTSNode.init (Connect4.copy root_state) none
  if root_node.untried_moves = [] then (none, root_state)
  else if root_node.untried_moves.length = 1 then
    (root_node.untried_moves.head?, root_state)
  else
    let (legal_moves, rs1) := available_st root_state
    let ai_player := currentPlayer rs1
    let human_player := otherPlayer rs1
    match legal_moves.find? (fun m =>
        decide (check_win_on_board (simulate_move rs1.board (currentPlayer rs1) m) =
          some ai_player)) with
    | some m => (some m, rs1)
    | none =>
        let (safe_moves, rs2) := safeLoop rs1 legal_moves human_player
        let root1 := pruneRoot root_node safe_moves
        let (rootF, _) := mctsLoop c_param fuel simulations root1 rs2 rng
        (bestChildMove rootF, rs2)

lemma Connect4.copy_board (s : GameState) : (Connect4.copy s).board = s.board := rfl

lemma MCTSNode.untried_moves_node (st : GameState) (mv : Option Int) (w : ℚ) (v : Nat)
    (ch : List MCTSNode) (un : List Int) (p : Cell) :
    (MCTSNode.node st mv w v ch un p).untried_moves = un := rfl

/-- A reachable position in which Red has already connected four (bottom row,
columns 0-3) while plenty of columns stay open; `game_over` is still `False`
because `make_move` never checks for wins. -/
def stateWonR : GameState := applyMoves Connect4.init [0, 6, 1, 6, 2, 5, 3]

/-- C9: when the root state already contains a winning line, the root node's
untried-move set is empty (the terminal snapshot), so `get_best_move` returns
`None` regardless of the search budget and random stream, even though columns
with an empty top cell remain — exactly the same interface outcome as the
no-legal-moves draw case. -/
theorem get_best_move_root_already_won (s : GameState) (t : Cell)
    (hwin : check_win_on_board s.board = some t)
    (hcols : get_available_moves s.board ≠ []) :
    (MCTSNode.init (Connect4.copy s) none).untried_moves = [] ∧
    ∀ (c_param : ℝ) (simulations fuel : Nat) (rng : List Nat),
      (get_best_move c_param simulations fuel rng s).1 = none := by
  have hwin' : check_win_on_board (Connect4.copy s).board = some t := hwin
  have huntried : (MCTSNode.init (Connect4.copy s) none).untried_moves = [] := by
    unfold MCTSNode.init check_winstate
    rw [hwin']
    rfl
  refine ⟨huntried, ?_⟩
  intro c_param simulations fuel rng
  simp only [get_best_move]
  rw [if_pos huntried]

/-- Witness for `get_best_move_root_already_won` at the already-won reachable
state `stateWonR`. -/
theorem get_best_move_root_already_won_witness :
    check_win_on_board stateWonR.board = some Cell.R ∧
    get_available_moves stateWonR.board ≠ [] ∧
    ((MCTSNode.init (Connect4.copy stateWonR) none).untried_moves = [] ∧
     ∀ (c_param : ℝ) (simulations fuel : Nat) (rng : List Nat),
       (get_best_move c_param simulations fuel rng stateWonR).1 = none) :=
  ⟨by decide, by decide,
   get_best_move_root_already_won stateWonR Cell.R (by decide) (by decide)⟩

lemma GameState.eta_game_over (s : GameState) :
    ({ s with game_over := s.game_over } : GameState) = s := rfl

lemma getD_set_self {α : Type} (l : List α) (i : Nat) (x d : α) (h : i < l.length) :
    (l.set i x).getD i d = x := by
  rw [List.getD_eq_getElem?_getD, List.getElem?_set_self h, Option.getD_some]

lemma getD_set_ne {α : Type} (l : List α) {i j : Nat} (x d : α) (h : i ≠ j) :
    (l.set i x).getD j d = l.getD j d := by
  rw [List.getD_eq_getElem?_getD, List.getElem?_set_ne h, ← List.getD_eq_getElem?_getD]

lemma bget_bset_ne {b : Board} {r c r' c' : Nat} (v : Cell)
    (h : r' ≠ r ∨ c' ≠ c) : bget (bset b r c v) r' c' = bget b r' c' := by
  unfold bget bset
  by_cases hlen : r < b.length
  · by_cases hrr : r' = r
    · subst hrr
      have hc : c ≠ c' := fun hh => (h.resolve_left (fun hh2 => hh2 rfl)) hh.symm
      rw [getD_set_self _ _ _ _ hlen, getD_set_ne _ _ _ hc]
    · rw [getD_set_ne _ _ _ (fun hh => hrr hh.symm)]
  · rw [List.set_eq_of_length_le (by omega)]

lemma get_available_moves_nodup (b : Board) : (get_available_moves b).Nodup :=
  List.Nodup.map (fun _ _ h => Int.ofNat.inj h)
    (List.Nodup.filter _ (List.nodup_range 7))

lemma mem_get_available_moves {b : Board} {k : Int} :
    k ∈ get_available_moves b ↔
      ∃ c : Nat, c < 7 ∧ k = Int.ofNat c ∧ bget b 0 c = Cell.empty := by
  unfold get_available_moves
  simp only [List.mem_map, List.mem_filter, List.mem_range, decide_eq_true_eq]
  constructor
  · rintro ⟨c, ⟨hc7, hemp⟩, rfl⟩
    exact ⟨c, hc7, rfl, hemp⟩
  · rintro ⟨c, hc7, rfl, hemp⟩
    exact ⟨c, ⟨hc7, hemp⟩, rfl⟩

lemma simulate_move_top_other {b : Board} {p : Cell} {m : Int} {c : Nat}
    (h : c ≠ m.toNat) : bget (simulate_move b p m) 0 c = bget b 0 c := by
  unfold simulate_move
  cases hf : ((List.range 6).reverse).find?
      (fun r => decide (bget b r m.toNat = Cell.empty)) with
  | none => rfl
  | some r => exact bget_bset_ne _ (Or.inr h)

lemma exists_other_mem {l : List Int} (hnd : l.Nodup) (hlen : 2 ≤ l.length)
    (m : Int) : ∃ k ∈ l, k ≠ m := by
  match l, hnd, hlen with
  | a :: b :: t, hnd, _ =>
    by_cases ha : a = m
    · subst ha
      refine ⟨b, List.mem_cons_of_mem _ (List.mem_cons_self _ _), ?_⟩
      intro hb
      apply (List.nodup_cons.1 hnd).1
      rw [← hb]
      exact List.mem_cons_self b t
    · exact ⟨a, List.mem_cons_self _ _, ha⟩

lemma avail_after_simulate_ne_nil {s : GameState} (p : Cell)
    (hlen : 2 ≤ (get_available_moves s.board).length) {m : Int}
    (hm : m ∈ get_available_moves s.board) :
    get_available_moves (simulate_move s.board p m) ≠ [] := by
  obtain ⟨k, hk, hkm⟩ :=
    exists_other_mem (get_available_moves_nodup s.board) hlen m
  obtain ⟨c, hc7, rfl, hemp⟩ := mem_get_available_moves.1 hk
  obtain ⟨cm, hcm7, rfl, hempm⟩ := mem_get_available_moves.1 hm
  have hcc : c ≠ (Int.ofNat cm).toNat := by
    intro hh
    apply hkm
    have hh2 : c = cm := hh
    rw [hh2]
  intro hnil
  have hmem : (Int.ofNat c) ∈ get_available_moves (simulate_move s.board p (Int.ofNat cm)) :=
    mem_get_available_moves.2 ⟨c, hc7, rfl, by rw [simulate_move_top_other hcc]; exact hemp⟩
  rw [hnil] at hmem
  exact absurd hmem (List.not_mem_nil _)

lemma available_st_snd_of_ne_nil {s : GameState}
    (h : get_available_moves s.board ≠ []) : (available_st s).2 = s := by
  have hie : (get_available_moves s.board).isEmpty = false := List.isEmpty_eq_false.2 h
  simp only [available_st]
  rw [hie]
  rfl

lemma available_st_board_snd_of_ne_nil {s : GameState} {b : Board}
    (h : get_available_moves b ≠ []) : (available_st_board s b).2 = s := by
  have hie : (get_available_moves b).isEmpty = false := List.isEmpty_eq_false.2 h
  simp only [available_st_board]
  rw [hie]
  rfl

lemma safeStep_snd {human : Cell} {acc : List Int × GameState} {m : Int}
    (h : get_available_moves (simulate_move acc.2.board (currentPlayer acc.2) m) ≠ []) :
    (safeStep human acc m).2 = acc.2 := by
  unfold safeStep
  exact available_st_board_snd_of_ne_nil h

lemma safeLoop_snd {s : GameState} {human : Cell} {legal : List Int}
    (h : ∀ m ∈ legal, get_available_moves (simulate_move s.board (currentPlayer s) m) ≠ []) :
    (safeLoop s legal human).2 = s := by
  unfold safeLoop
  have key : ∀ (l : List Int),
      (∀ m ∈ l, get_available_moves (simulate_move s.board (currentPlayer s) m) ≠ []) →
      ∀ acc : List Int × GameState, acc.2 = s →
        (l.foldl (safeStep human) acc).2 = s := by
    intro l
    induction l with
    | nil => intro _ acc ha; simpa using ha
    | cons a t ih =>
        intro hall acc ha
        simp only [List.foldl_cons]
        apply ih (fun m hm => hall m (List.mem_cons_of_mem _ hm))
        rw [safeStep_snd, ha]
        rw [ha]
        exact hall a (List.mem_cons_self _ _)
  exact key legal h ([], s) rfl

lemma init_untried_of_win {s : GameState} {t : Cell}
    (hwin : check_win_on_board s.board = some t) :
    (MCTSNode.init (Connect4.copy s) none).untried_moves = [] := by
  have hwin' : check_win_on_board (Connect4.copy s).board = some t := hwin
  unfold MCTSNode.init check_winstate
  rw [hwin']
  rfl

lemma init_untried_of_no_win {s : GameState}
    (hnw : check_win_on_board s.board = none) :
    (MCTSNode.init (Connect4.copy s) none).untried_moves = get_available_moves s.board := by
  have hnw' : check_win_on_board (Connect4.copy s).board = none := hnw
  unfold MCTSNode.init check_winstate
  rw [hnw']
  rfl

lemma rootAfterPruning_eq {s : GameState}
    (hne : get_available_moves s.board ≠ []) :
    rootAfterPruning s =
      pruneRoot (MCTSNode.init (Connect4.copy s) none)
        (safeLoop s (get_available_moves s.board) (otherPlayer s)).1 := by
  have hie : (get_available_moves s.board).isEmpty = false := List.isEmpty_eq_false.2 hne
  simp only [rootAfterPruning, available_st]
  rw [hie]
  rfl

lemma get_best_move_main (c_param : ℝ) (sims fuel : Nat) (rng : List Nat)
    (s : GameState) (hnw : check_win_on_board s.board = none)
    (hlen : 2 ≤ (get_available_moves s.board).length) :
    get_best_move c_param sims fuel rng s =
      match (get_available_moves s.board).find? (fun m =>
          decide (check_win_on_board (simulate_move s.board (currentPlayer s) m) =
            some (currentPlayer s))) with
      | some m => (some m, s)
      | none =>
          (bestChildMove (mctsLoop c_param fuel sims (rootAfterPruning s) s rng).1, s) := by
  have hne : get_available_moves s.board ≠ [] := by
    intro h0
    rw [h0] at hlen
    simp at hlen
  have hie : (get_available_moves s.board).isEmpty = false := List.isEmpty_eq_false.2 hne
  have huneq := init_untried_of_no_win hnw
  have hlen1 : ¬ (MCTSNode.init (Connect4.copy s) none).untried_moves.length = 1 := by
    rw [huneq]
    omega
  have hnil : ¬ (MCTSNode.init (Connect4.copy s) none).untried_moves = [] := by
    rw [huneq]
    exact hne
  have hall : ∀ m ∈ get_available_moves s.board,
      get_available_moves (simulate_move s.board (currentPlayer s) m) ≠ [] :=
    fun m hm => avail_after_simulate_ne_nil (currentPlayer s) hlen hm
  have hsafe : safeLoop s (get_available_moves s.board) (otherPlayer s) =
      ((safeLoop s (get_available_moves s.board) (otherPlayer s)).1, s) := by
    have h2 := @safeLoop_snd s (otherPlayer s) (get_available_moves s.board) hall
    calc safeLoop s (get_available_moves s.board) (otherPlayer s) =
        ((safeLoop s (get_available_moves s.board) (otherPlayer s)).1,
         (safeLoop s (get_available_moves s.board) (otherPlayer s)).2) := Prod.mk.eta.symm
      _ = ((safeLoop s (get_available_moves s.board) (otherPlayer s)).1, s) := by rw [h2]
  have hcond : ¬ ((get_available_moves s.board).isEmpty = true) := by
    rw [hie]
    exact Bool.false_ne_true
  simp only [get_best_move, available_st]
  rw [if_neg hnil, if_neg hlen1, if_neg hcond]
  simp only [GameState.eta_game_over]
  rw [hsafe, rootAfterPruning_eq hne]

/-- A reachable three-in-a-row position: Red occupies row 5, columns 0-2,
with column 3 open; Red is to move. -/
def stateThreeInRow : GameState := applyMoves Connect4.init [0, 4, 1, 4, 2, 6]

/-- C4: if the root state is non-terminal, has at least two available moves,
and some legal move gives the side to move an immediate win, `get_best_move`
returns such a winning move; the result is the same for every simulation
budget, rollout fuel and random stream, because the win check runs before the
MCTS loop. -/
theorem get_best_move_immediate_win (s : GameState)
    (hnw : check_win_on_board s.board = none)
    (hlen : 2 ≤ (get_available_moves s.board).length)
    (hwin : ∃ m ∈ get_available_moves s.board,
      check_win_on_board (simulate_move s.board (currentPlayer s) m) =
        some (currentPlayer s)) :
    ∃ m ∈ get_available_moves s.board,
      check_win_on_board (simulate_move s.board (currentPlayer s) m) =
        some (currentPlayer s) ∧
      ∀ (c_param : ℝ) (simulations fuel : Nat) (rng : List Nat),
        get_best_move c_param simulations fuel rng s = (some m, s) := by
  have hex : ∃ m ∈ get_available_moves s.board, (fun m =>
      decide (check_win_on_board (simulate_move s.board (currentPlayer s) m) =
        some (currentPlayer s))) m = true := by
    obtain ⟨m, hm, hwm⟩ := hwin
    exact ⟨m, hm, decide_eq_true hwm⟩
  have hs : ((get_available_moves s.board).find? (fun m =>
      decide (check_win_on_board (simulate_move s.board (currentPlayer s) m) =
        some (currentPlayer s)))).isSome := List.find?_isSome.2 hex
  obtain ⟨m₀, hm₀⟩ := Option.isSome_iff_exists.1 hs
  have hpm0 := List.find?_some hm₀
  have hpm : decide (check_win_on_board (simulate_move s.board (currentPlayer s) m₀) =
      some (currentPlayer s)) = true := hpm0
  refine ⟨m₀, List.mem_of_find?_eq_some hm₀, of_decide_eq_true hpm, ?_⟩
  intro c_param simulations fuel rng
  rw [get_best_move_main c_param simulations fuel rng s hnw hlen, hm₀]

/-- Witness for `get_best_move_immediate_win` on the reachable
`stateThreeInRow` position, where column 3 completes Red's bottom row. -/
theorem get_best_move_immediate_win_witness :
    check_win_on_board stateThreeInRow.board = none ∧
    2 ≤ (get_available_moves stateThreeInRow.board).length ∧
    (∃ m ∈ get_available_moves stateThreeInRow.board,
      check_win_on_board (simulate_move stateThreeInRow.board
        (currentPlayer stateThreeInRow) m) = some (currentPlayer stateThreeInRow)) ∧
    (∃ m ∈ get_available_moves stateThreeInRow.board,
      check_win_on_board (simulate_move stateThreeInRow.board
        (currentPlayer stateThreeInRow) m) = some (currentPlayer stateThreeInRow) ∧
      ∀ (c_param : ℝ) (simulations fuel : Nat) (rng : List Nat),
        get_best_move c_param simulations fuel rng stateThreeInRow =
          (some m, stateThreeInRow)) :=
  ⟨by decide, by decide, by decide,
   get_best_move_immediate_win stateThreeInRow (by decide) (by decide) (by decide)⟩

/-- C6: `get_best_move` never mutates the root state it is handed: every
field of the returned final root state equals the input.  The two live
`_get_available_moves` calls it makes on `root_state` can only set
`game_over`, and on every path that reaches them the relevant move lists are
provably non-empty. -/
theorem get_best_move_root_state_frame (c_param : ℝ) (simulations fuel : Nat)
    (rng : List Nat) (s : GameState) :
    (get_best_move c_param simulations fuel rng s).2 = s := by
  by_cases huntried : (MCTSNode.init (Connect4.copy s) none).untried_moves = []
  · simp only [get_best_move]
    rw [if_pos huntried]
  · by_cases hone : (MCTSNode.init (Connect4.copy s) none).untried_moves.length = 1
    · simp only [get_best_move]
      rw [if_neg huntried, if_pos hone]
    · have hnw : check_win_on_board s.board = none := by
        cases hcw : check_win_on_board s.board with
        | none => rfl
        | some t => exact absurd (init_untried_of_win hcw) huntried
      have huneq := init_untried_of_no_win hnw
      rw [huneq] at huntried hone
      have hlen : 2 ≤ (get_available_moves s.board).length := by
        cases hl : get_available_moves s.board with
        | nil => exact absurd hl huntried
        | cons a tl =>
            cases tl with
            | nil => rw [hl] at hone; simp at hone
            | cons b tl2 => simp
      rw [get_best_move_main c_param simulations fuel rng s hnw hlen]
      cases hf : (get_available_moves s.board).find? (fun m =>
          decide (check_win_on_board (simulate_move s.board (currentPlayer s) m) =
            some (currentPlayer s))) with
      | none => rfl
      | some m => rfl

lemma MCTSNode.untried_setUntried (n : MCTSNode) (u : List Int) :
    (n.setUntried u).untried_moves = u := by
  cases n
  rfl

lemma filter_mem_filter {l : List Int} {p : Int → Bool} :
    l.filter (fun m => decide (m ∈ l.filter p)) = l.filter p := by
  apply List.filter_congr
  intro x hx
  simp [List.mem_filter, hx]

/-- Specification-side predicate for claim C5: after move `m` by the side to
move, no reply `om` of the opponent `human` yields an immediate opponent
win. -/
def noLosingReplyB (s : GameState) (human : Cell) (m : Int) : Bool :=
  decide (∀ om ∈ get_available_moves (simulate_move s.board (currentPlayer s) m),
    ¬ check_win_on_board (simulate_move (simulate_move s.board (currentPlayer s) m)
      human om) = some human)

/-- Specification-side safe-move set for claim C5: the legal root moves after
which the opponent has no immediate winning reply. -/
def movesWithNoLosingReply (s : GameState) : List Int :=
  (get_available_moves s.board).filter (noLosingReplyB s (otherPlayer s))

lemma safeStep_at_state {s : GameState} {human : Cell} {pre : List Int} {a : Int}
    (h : get_available_moves (simulate_move s.board (currentPlayer s) a) ≠ []) :
    safeStep human (pre, s) a =
      (if (get_available_moves (simulate_move s.board (currentPlayer s) a)).any
          (fun om => decide (check_win_on_board
            (simulate_move (simulate_move s.board (currentPlayer s) a) human om) =
              some human)) = true
       then pre else pre ++ [a], s) := by
  have hie : (get_available_moves (simulate_move s.board (currentPlayer s) a)).isEmpty
      = false := List.isEmpty_eq_false.2 h
  have hcond : ¬ ((get_available_moves (simulate_move s.board (currentPlayer s) a)).isEmpty
      = true) := by
    rw [hie]
    exact Bool.false_ne_true
  simp only [safeStep, available_st_board]
  rw [if_neg hcond]

lemma safeLoop_foldl_fst {s : GameState} {human : Cell} :
    ∀ (legal : List Int),
      (∀ m ∈ legal, get_available_moves (simulate_move s.board (currentPlayer s) m) ≠ []) →
      ∀ (pre : List Int),
        (legal.foldl (safeStep human) (pre, s)).1 =
          pre ++ legal.filter (noLosingReplyB s human) := by
  intro legal
  induction legal with
  | nil => intro _ pre; simp
  | cons a t ih =>
      intro hall pre
      have ha := hall a (List.mem_cons_self _ _)
      rw [List.foldl_cons, safeStep_at_state ha]
      cases hany : (get_available_moves (simulate_move s.board (currentPlayer s) a)).any
          (fun om => decide (check_win_on_board
            (simulate_move (simulate_move s.board (currentPlayer s) a) human om) =
              some human)) with
      | true =>
          have hpa : ¬ (noLosingReplyB s human a = true) := by
            simp only [noLosingReplyB, decide_eq_true_eq]
            intro hforall
            obtain ⟨om, hom, hq⟩ := List.any_eq_true.1 hany
            exact hforall om hom (of_decide_eq_true hq)
          rw [if_pos rfl, List.filter_cons_of_neg hpa]
          exact ih (fun m hm => hall m (List.mem_cons_of_mem _ hm)) pre
      | false =>
          have hpa : noLosingReplyB s human a = true := by
            simp only [noLosingReplyB, decide_eq_true_eq]
            intro om hom hcw
            exact (List.any_eq_false.1 hany om hom) (decide_eq_true hcw)
          rw [if_neg Bool.false_ne_true, List.filter_cons_of_pos hpa]
          rw [ih (fun m hm => hall m (List.mem_cons_of_mem _ hm)) (pre ++ [a])]
          simp

lemma safeLoop_fst {s : GameState}
    (hall : ∀ m ∈ get_available_moves s.board,
      get_available_moves (simulate_move s.board (currentPlayer s) m) ≠ []) :
    (safeLoop s (get_available_moves s.board) (otherPlayer s)).1 =
      movesWithNoLosingReply s := by
  unfold safeLoop movesWithNoLosingReply
  rw [safeLoop_foldl_fst (get_available_moves s.board) hall []]
  simp

/-- C5: once the win short-circuit has found nothing, the pruning phase
restricts the root node untried-move set to exactly the legal moves with no
immediate winning opponent reply, provided that set is non-empty; if every
legal move allows an immediate opponent win, the untried-move set keeps all
legal moves.  (`rootAfterPruning` is the root node exactly as `get_best_move`
hands it to the simulation loop.) -/
theorem pruning_restricts_untried (s : GameState)
    (hnw : check_win_on_board s.board = none)
    (hlen : 2 ≤ (get_available_moves s.board).length)
    (hnowin : ∀ m ∈ get_available_moves s.board,
      check_win_on_board (simulate_move s.board (currentPlayer s) m) ≠
        some (currentPlayer s)) :
    (movesWithNoLosingReply s ≠ [] →
      (rootAfterPruning s).untried_moves = movesWithNoLosingReply s) ∧
    (movesWithNoLosingReply s = [] →
      (rootAfterPruning s).untried_moves = get_available_moves s.board) := by
  have hne : get_available_moves s.board ≠ [] := by
    intro h0
    rw [h0] at hlen
    simp at hlen
  have hall : ∀ m ∈ get_available_moves s.board,
      get_available_moves (simulate_move s.board (currentPlayer s) m) ≠ [] :=
    fun m hm => avail_after_simulate_ne_nil (currentPlayer s) hlen hm
  have huntried := init_untried_of_no_win hnw
  rw [rootAfterPruning_eq hne]
  unfold pruneRoot
  rw [safeLoop_fst hall, huntried]
  have hcommon : (get_available_moves s.board).filter
      (fun m => decide (m ∈ movesWithNoLosingReply s)) = movesWithNoLosingReply s := by
    unfold movesWithNoLosingReply
    exact filter_mem_filter
  constructor
  · intro hF
    have hnie : ¬ ((movesWithNoLosingReply s).isEmpty = true) :=
      fun hie => hF (List.isEmpty_iff.1 hie)
    rw [if_neg hnie, hcommon, if_neg hnie, MCTSNode.untried_setUntried]
  · intro hF
    rw [if_pos (List.isEmpty_iff.2 hF), huntried]

/-- Witness for `pruning_restricts_untried` at the initial (empty-board)
state: no move wins immediately there. -/
theorem pruning_restricts_untried_witness :
    check_win_on_board Connect4.init.board = none ∧
    2 ≤ (get_available_moves Connect4.init.board).length ∧
    (∀ m ∈ get_available_moves Connect4.init.board,
      check_win_on_board (simulate_move Connect4.init.board
        (currentPlayer Connect4.init) m) ≠ some (currentPlayer Connect4.init)) ∧
    ((movesWithNoLosingReply Connect4.init ≠ [] →
      (rootAfterPruning Connect4.init).untried_moves =
        movesWithNoLosingReply Connect4.init) ∧
     (movesWithNoLosingReply Connect4.init = [] →
      (rootAfterPruning Connect4.init).untried_moves =
        get_available_moves Connect4.init.board)) :=
  ⟨by decide, by decide, by decide,
   pruning_restricts_untried Connect4.init (by decide) (by decide) (by decide)⟩

lemma getLastD_mem {α : Type} : ∀ (l : List α) (d : α), l ≠ [] → l.getLastD d ∈ l := by
  intro l
  induction l with
  | nil => intro d h; exact absurd rfl h
  | cons a t ih =>
      intro d _
      rw [List.getLastD_cons]
      cases ht : t with
      | nil => simp
      | cons b t2 =>
          rw [ht] at ih
          exact List.mem_cons_of_mem _ (ih a (by simp))

lemma sorted_rel_getLastD {α : Type} {r : α → α → Prop} [IsTotal α r] :
    ∀ {l : List α} (d : α), List.Sorted r l → ∀ x ∈ l, r x (l.getLastD d) := by
  intro l
  induction l with
  | nil => intro d _ x hx; exact absurd hx (List.not_mem_nil x)
  | cons a t ih =>
      intro d hs x hx
      rw [List.getLastD_cons]
      have hhead := (List.sorted_cons.1 hs).1
      have htail := (List.sorted_cons.1 hs).2
      rcases List.mem_cons.1 hx with rfl | hxt
      · cases ht : t with
        | nil => exact (total_of r x x).elim id id
        | cons b t2 =>
            apply hhead
            rw [ht]
            exact getLastD_mem _ _ (by simp)
      · exact ih _ htail x hxt

lemma uctKey_of_visits_zero {c_param : ℝ} {pv : Nat} {ch : MCTSNode}
    (h : ch.visits = 0) : uctKey c_param pv ch = ⊤ := by
  unfold uctKey
  rw [if_neg]
  omega

lemma uctKey_ne_top_of_visits_pos {c_param : ℝ} {pv : Nat} {ch : MCTSNode}
    (h : 0 < ch.visits) : uctKey c_param pv ch ≠ ⊤ := by
  unfold uctKey
  rw [if_pos h]
  exact EReal.coe_ne_top _

/-- C7: `uct_select_child` returns a child maximizing
`wins/visits + C*sqrt(ln(parent visits)/visits)` (with an unvisited child
scored `+∞`), and whenever some child is unvisited, the returned child is one
of the unvisited ones. -/
theorem uct_select_child_spec (c_param : ℝ) (n : MCTSNode)
    (hch : n.children ≠ []) :
    ∃ c, n.uct_select_child c_param = some c ∧ c ∈ n.children ∧
      (∀ c2 ∈ n.children, uctKey c_param n.visits c2 ≤ uctKey c_param n.visits c) ∧
      ((∃ c0 ∈ n.children, c0.visits = 0) → c.visits = 0) := by
  haveI hTot : IsTotal Nat (uctIdxRel c_param n) := ⟨fun a b => le_total _ _⟩
  haveI hTrans : IsTrans Nat (uctIdxRel c_param n) := ⟨fun a b c hab hbc => le_trans hab hbc⟩
  have hsorted : List.Sorted (uctIdxRel c_param n) (uct_sorted_indices c_param n) := by
    unfold uct_sorted_indices
    exact @List.sorted_insertionSort Nat (uctIdxRel c_param n) (Classical.decRel _)
      hTot hTrans (List.range n.children.length)
  have hperm : (uct_sorted_indices c_param n).Perm (List.range n.children.length) := by
    unfold uct_sorted_indices
    exact @List.perm_insertionSort Nat (uctIdxRel c_param n) (Classical.decRel _)
      (List.range n.children.length)
  have hlenpos : 0 < n.children.length := List.length_pos.2 hch
  have hne2 : uct_sorted_indices c_param n ≠ [] := by
    intro h0
    have hlen := hperm.length_eq
    rw [h0, List.length_range] at hlen
    simp at hlen
    omega
  have hidxmem : uct_select_idx c_param n ∈ uct_sorted_indices c_param n := by
    unfold uct_select_idx
    exact getLastD_mem _ 0 hne2
  have hidxlt : uct_select_idx c_param n < n.children.length :=
    List.mem_range.1 (hperm.mem_iff.1 hidxmem)
  refine ⟨n.children.get ⟨uct_select_idx c_param n, hidxlt⟩, ?_, List.get_mem _ _ _, ?_, ?_⟩
  · unfold MCTSNode.uct_select_child
    exact List.get?_eq_get hidxlt
  · intro c2 hc2
    obtain ⟨⟨j, hjlt⟩, hj⟩ := List.mem_iff_get.1 hc2
    have hjmem : j ∈ uct_sorted_indices c_param n :=
      hperm.mem_iff.2 (List.mem_range.2 hjlt)
    have hrel : uctIdxRel c_param n j (uct_select_idx c_param n) := by
      have := sorted_rel_getLastD 0 hsorted j hjmem
      exact this
    unfold uctIdxRel at hrel
    have h1 : n.children.getD j default = c2 := by
      rw [List.getD_eq_getElem _ _ hjlt, ← hj]
      exact (List.get_eq_getElem n.children ⟨j, hjlt⟩).symm
    have h2 : n.children.getD (uct_select_idx c_param n) default =
        n.children.get ⟨uct_select_idx c_param n, hidxlt⟩ := by
      rw [List.getD_eq_getElem _ _ hidxlt]
      exact (List.get_eq_getElem n.children ⟨uct_select_idx c_param n, hidxlt⟩).symm
    rw [h1, h2] at hrel
    exact hrel
  · rintro ⟨c0, hc0, hv0⟩
    have h0 : uctKey c_param n.visits c0 = ⊤ := uctKey_of_visits_zero hv0
    have hle : uctKey c_param n.visits c0 ≤
        uctKey c_param n.visits (n.children.get ⟨uct_select_idx c_param n, hidxlt⟩) := by
      obtain ⟨⟨j, hjlt⟩, hj⟩ := List.mem_iff_get.1 hc0
      have hjmem : j ∈ uct_sorted_indices c_param n :=
        hperm.mem_iff.2 (List.mem_range.2 hjlt)
      have hrel : uctIdxRel c_param n j (uct_select_idx c_param n) :=
        sorted_rel_getLastD 0 hsorted j hjmem
      unfold uctIdxRel at hrel
      have h1 : n.children.getD j default = c0 := by
        rw [List.getD_eq_getElem _ _ hjlt, ← hj]
        exact (List.get_eq_getElem n.children ⟨j, hjlt⟩).symm
      have h2 : n.children.getD (uct_select_idx c_param n) default =
          n.children.get ⟨uct_select_idx c_param n, hidxlt⟩ := by
        rw [List.getD_eq_getElem _ _ hidxlt]
        exact (List.get_eq_getElem n.children ⟨uct_select_idx c_param n, hidxlt⟩).symm
      rw [h1, h2] at hrel
      exact hrel
    rw [h0] at hle
    rcases Nat.eq_zero_or_pos (n.children.get ⟨uct_select_idx c_param n, hidxlt⟩).visits with
      hz | hp
    · exact hz
    · exact absurd (top_le_iff.1 hle) (uctKey_ne_top_of_visits_pos hp)

/-- Witness node for `uct_select_child_spec`: a parent with two children. -/
def wNodeA : MCTSNode :=
  MCTSNode.node Connect4.init (some 0) 0 0 [] [] Cell.R

def wNodeB : MCTSNode :=
  MCTSNode.node Connect4.init (some 1) 0 1 [] [] Cell.R

def wParent : MCTSNode :=
  MCTSNode.node Connect4.init none 0 2 [wNodeA, wNodeB] [] Cell.Y

/-- Witness for `uct_select_child_spec` at a concrete two-child node. -/
theorem uct_select_child_spec_witness :
    wParent.children ≠ [] ∧
    ∃ c, wParent.uct_select_child 1 = some c ∧ c ∈ wParent.children ∧
      (∀ c2 ∈ wParent.children, uctKey 1 wParent.visits c2 ≤ uctKey 1 wParent.visits c) ∧
      ((∃ c0 ∈ wParent.children, c0.visits = 0) → c.visits = 0) :=
  ⟨by simp [wParent, MCTSNode.children], uct_select_child_spec 1 wParent
    (by simp [wParent, MCTSNode.children])⟩

lemma MCTSNode.visits_update (n : MCTSNode) (r : ℚ) :
    (n.update r).visits = n.visits + 1 := by
  cases n
  rfl

lemma MCTSNode.children_update (n : MCTSNode) (r : ℚ) :
    (n.update r).children = n.children := by
  cases n
  rfl

lemma MCTSNode.untried_update (n : MCTSNode) (r : ℚ) :
    (n.update r).untried_moves = n.untried_moves := by
  cases n
  rfl

lemma MCTSNode.visits_updateWith (n : MCTSNode) (w : Option Cell) :
    (n.updateWith w).visits = n.visits + 1 :=
  MCTSNode.visits_update n _

lemma MCTSNode.children_updateWith (n : MCTSNode) (w : Option Cell) :
    (n.updateWith w).children = n.children :=
  MCTSNode.children_update n _

lemma MCTSNode.children_setChildren (n : MCTSNode) (ch : List MCTSNode) :
    (n.setChildren ch).children = ch := by
  cases n
  rfl

lemma MCTSNode.visits_setChildren (n : MCTSNode) (ch : List MCTSNode) :
    (n.setChildren ch).visits = n.visits := by
  cases n
  rfl

lemma MCTSNode.visits_setUntried (n : MCTSNode) (u : List Int) :
    (n.setUntried u).visits = n.visits := by
  cases n
  rfl

lemma MCTSNode.children_setUntried (n : MCTSNode) (u : List Int) :
    (n.setUntried u).children = n.children := by
  cases n
  rfl

lemma MCTSNode.visits_init (st : GameState) (mv : Option Int) :
    (MCTSNode.init st mv).visits = 0 := by
  unfold MCTSNode.init
  cases hcw : check_winstate st with
  | mk w st1 =>
      cases w
      · rfl
      · rfl

lemma MCTSNode.children_init (st : GameState) (mv : Option Int) :
    (MCTSNode.init st mv).children = [] := by
  unfold MCTSNode.init
  cases hcw : check_winstate st with
  | mk w st1 =>
      cases w
      · rfl
      · rfl

lemma uct_select_idx_lt (c_param : ℝ) (n : MCTSNode) (hch : n.children ≠ []) :
    uct_select_idx c_param n < n.children.length := by
  have hperm : (uct_sorted_indices c_param n).Perm (List.range n.children.length) := by
    unfold uct_sorted_indices
    exact @List.perm_insertionSort Nat (uctIdxRel c_param n) (Classical.decRel _)
      (List.range n.children.length)
  have hlenpos : 0 < n.children.length := List.length_pos.2 hch
  have hne2 : uct_sorted_indices c_param n ≠ [] := by
    intro h0
    have hlen := hperm.length_eq
    rw [h0, List.length_range] at hlen
    simp at hlen
    omega
  have hidxmem : uct_select_idx c_param n ∈ uct_sorted_indices c_param n := by
    unfold uct_select_idx
    exact getLastD_mem _ 0 hne2
  exact List.mem_range.1 (hperm.mem_iff.1 hidxmem)

/-- The visit count of the node at which `simIter` is invoked grows by
exactly one: every branch ends by updating the node once. -/
lemma simIter_visits (c_param : ℝ) (fuel : Nat) (n : MCTSNode)
    (state : GameState) (rng : List Nat) :
    (simIter c_param fuel n state rng).1.visits = n.visits + 1 := by
  by_cases h : n.untried_moves = [] ∧ n.children ≠ []
  · have hi := uct_select_idx_lt c_param n h.2
    unfold simIter
    rw [if_pos h, dif_pos hi]
    rcases hrec : simIter c_param fuel
        (n.children.get ⟨uct_select_idx c_param n, hi⟩)
        (match (n.children.get ⟨uct_select_idx c_param n, hi⟩).move with
          | some m => (make_move state m).2
          | none => state) rng with ⟨c1, w, r1⟩
    simp only [hrec, MCTSNode.visits_updateWith, MCTSNode.visits_setChildren]
  · by_cases h2 : n.untried_moves ≠ []
    · unfold simIter
      rw [if_neg h, if_pos h2]
      rcases hnc : nextChoice rng with ⟨r, rng1⟩
      simp only [hnc]
      rcases hro : rollout fuel
          (make_move state (n.untried_moves.getD (r % n.untried_moves.length) 0)).2 rng1
        with ⟨stateF, rng2⟩
      simp only [hro, MCTSNode.visits_updateWith, MCTSNode.visits_setChildren,
        MCTSNode.visits_setUntried]
    · unfold simIter
      rw [if_neg h, if_neg h2]
      rcases hro : rollout fuel state rng with ⟨stateF, rng2⟩
      simp only [hro, MCTSNode.visits_updateWith]

/-- Total visit count over a node's children. -/
def sumChildVisits (n : MCTSNode) : Nat :=
  (n.children.map MCTSNode.visits).sum

lemma sum_map_set {α : Type} (f : α → Nat) :
    ∀ (l : List α) (i : Nat) (x : α) (h : i < l.length),
      ((l.set i x).map f).sum + f l[i] = (l.map f).sum + f x := by
  intro l
  induction l with
  | nil => intro i x h; simp at h
  | cons a t ih =>
      intro i x h
      cases i with
      | zero => simp; omega
      | succ j =>
          have hj : j < t.length := by simpa using h
          simp only [List.set_cons_succ, List.map_cons, List.sum_cons,
            List.getElem_cons_succ]
          have := ih j x hj
          omega

lemma nonTerminalLeaf_cases {n : MCTSNode}
    (hnt : ¬(n.untried_moves = [] ∧ n.children = []))
    (hns : ¬(n.untried_moves = [] ∧ n.children ≠ [])) :
    n.untried_moves ≠ [] := by
  intro hu
  by_cases hc : n.children = []
  · exact hnt ⟨hu, hc⟩
  · exact hns ⟨hu, hc⟩

/-- Each iteration adds exactly one visit to exactly one child of the node it
starts from: the sum of the children's visit counts grows by one (provided
the node is not a terminal leaf). -/
lemma simIter_sumChildVisits (c_param : ℝ) (fuel : Nat) (n : MCTSNode)
    (state : GameState) (rng : List Nat)
    (hnt : ¬(n.untried_moves = [] ∧ n.children = [])) :
    sumChildVisits (simIter c_param fuel n state rng).1 = sumChildVisits n + 1 := by
  by_cases h : n.untried_moves = [] ∧ n.children ≠ []
  · have hi := uct_select_idx_lt c_param n h.2
    have hchild := simIter_visits c_param fuel
      (n.children.get ⟨uct_select_idx c_param n, hi⟩)
      (match (n.children.get ⟨uct_select_idx c_param n, hi⟩).move with
        | some m => (make_move state m).2
        | none => state) rng
    unfold simIter
    rw [if_pos h, dif_pos hi]
    rcases hrec : simIter c_param fuel
        (n.children.get ⟨uct_select_idx c_param n, hi⟩)
        (match (n.children.get ⟨uct_select_idx c_param n, hi⟩).move with
          | some m => (make_move state m).2
          | none => state) rng with ⟨c1, w, r1⟩
    rw [hrec] at hchild
    simp only [sumChildVisits, hrec, MCTSNode.children_updateWith,
      MCTSNode.children_setChildren]
    have hss := sum_map_set MCTSNode.visits n.children (uct_select_idx c_param n) c1 hi
    have hget : n.children[uct_select_idx c_param n] =
        n.children.get ⟨uct_select_idx c_param n, hi⟩ :=
      (List.get_eq_getElem n.children ⟨uct_select_idx c_param n, hi⟩).symm
    rw [hget] at hss
    simp only [Prod.fst] at hchild
    omega
  · have h2 := nonTerminalLeaf_cases hnt h
    unfold simIter
    rw [if_neg h, if_pos h2]
    rcases hnc : nextChoice rng with ⟨r, rng1⟩
    simp only [hnc]
    rcases hro : rollout fuel
        (make_move state (n.untried_moves.getD (r % n.untried_moves.length) 0)).2 rng1
      with ⟨stateF, rng2⟩
    simp only [hro, sumChildVisits, MCTSNode.children_updateWith,
      MCTSNode.children_setChildren]
    simp [MCTSNode.visits_updateWith, MCTSNode.visits_init]

/-- Each non-terminal-leaf iteration leaves the node with at least one
child. -/
lemma simIter_children_ne_nil (c_param : ℝ) (fuel : Nat) (n : MCTSNode)
    (state : GameState) (rng : List Nat)
    (hnt : ¬(n.untried_moves = [] ∧ n.children = [])) :
    (simIter c_param fuel n state rng).1.children ≠ [] := by
  by_cases h : n.untried_moves = [] ∧ n.children ≠ []
  · have hi := uct_select_idx_lt c_param n h.2
    unfold simIter
    rw [if_pos h, dif_pos hi]
    rcases hrec : simIter c_param fuel
        (n.children.get ⟨uct_select_idx c_param n, hi⟩)
        (match (n.children.get ⟨uct_select_idx c_param n, hi⟩).move with
          | some m => (make_move state m).2
          | none => state) rng with ⟨c1, w, r1⟩
    simp only [hrec, MCTSNode.children_updateWith, MCTSNode.children_setChildren]
    intro h0
    have := congrArg List.length h0
    rw [List.length_set] at this
    simp at this
    exact h.2 this
  · have h2 := nonTerminalLeaf_cases hnt h
    unfold simIter
    rw [if_neg h, if_pos h2]
    rcases hnc : nextChoice rng with ⟨r, rng1⟩
    simp only [hnc]
    rcases hro : rollout fuel
        (make_move state (n.untried_moves.getD (r % n.untried_moves.length) 0)).2 rng1
      with ⟨stateF, rng2⟩
    simp only [hro, MCTSNode.children_updateWith, MCTSNode.children_setChildren]
    simp

lemma mctsLoop_stats (c_param : ℝ) (fuel : Nat) :
    ∀ (k : Nat) (n : MCTSNode) (rs : GameState) (rng : List Nat),
      ¬(n.untried_moves = [] ∧ n.children = []) →
      (mctsLoop c_param fuel k n rs rng).1.visits = n.visits + k ∧
      sumChildVisits (mctsLoop c_param fuel k n rs rng).1 = sumChildVisits n + k ∧
      (1 ≤ k → (mctsLoop c_param fuel k n rs rng).1.children ≠ []) := by
  intro k
  induction k with
  | zero =>
      intro n rs rng _
      refine ⟨rfl, rfl, ?_⟩
      intro h1
      omega
  | succ k ih =>
      intro n rs rng hnt
      have hv := simIter_visits c_param fuel n (Connect4.copy rs) rng
      have hsum := simIter_sumChildVisits c_param fuel n (Connect4.copy rs) rng hnt
      have hch := simIter_children_ne_nil c_param fuel n (Connect4.copy rs) rng hnt
      unfold mctsLoop
      rcases hsi : simIter c_param fuel n (Connect4.copy rs) rng with ⟨n1, w, rng1⟩
      rw [hsi] at hv hsum hch
      simp only [hsi]
      have hnt1 : ¬(n1.untried_moves = [] ∧ n1.children = []) := by
        intro hcon
        exact hch hcon.2
      obtain ⟨ihv, ihs, ihc⟩ := ih n1 rs rng1 hnt1
      refine ⟨?_, ?_, ?_⟩
      · rw [ihv]
        simp only [Prod.fst] at hv
        omega
      · rw [ihs]
        simp only [Prod.fst] at hsum
        omega
      · intro _
        cases k with
        | zero =>
            have : mctsLoop c_param fuel 0 n1 rs rng1 = (n1, rng1) := rfl
            rw [this]
            exact hch
        | succ k2 => exact ihc (by omega)

lemma rootAfterPruning_visits_children (s : GameState) :
    (rootAfterPruning s).visits = 0 ∧ (rootAfterPruning s).children = [] := by
  unfold rootAfterPruning pruneRoot
  rcases hsl : safeLoop (available_st s).2 (available_st s).1
      (otherPlayer (available_st s).2) with ⟨sf, s2⟩
  simp only [hsl]
  by_cases h1 : sf.isEmpty
  · rw [if_pos h1]
    exact ⟨MCTSNode.visits_init _ _, MCTSNode.children_init _ _⟩
  · rw [if_neg h1]
    by_cases h2 : ((MCTSNode.init (Connect4.copy s) none).untried_moves.filter
        (fun m => decide (m ∈ sf))).isEmpty
    · rw [if_pos h2]
      exact ⟨MCTSNode.visits_init _ _, MCTSNode.children_init _ _⟩
    · rw [if_neg h2]
      rw [MCTSNode.visits_setUntried, MCTSNode.children_setUntried]
      exact ⟨MCTSNode.visits_init _ _, MCTSNode.children_init _ _⟩

/-- C10: whenever the simulation loop runs with budget `k ≥ 1` on the pruned
root (which still has untried moves), each iteration adds one visit to the
root and one to exactly one root child, so afterwards the root's visit count
is `k`, the children's visit counts sum to `k`, and at least one child
exists — the final highest-visit extraction is well-defined. -/
theorem mctsLoop_root_visit_counts (c_param : ℝ) (fuel : Nat) (s : GameState)
    (rng : List Nat) (k : Nat)
    (huntried : (rootAfterPruning s).untried_moves ≠ []) (hk : 1 ≤ k) :
    (mctsLoop c_param fuel k (rootAfterPruning s) s rng).1.visits = k ∧
    sumChildVisits (mctsLoop c_param fuel k (rootAfterPruning s) s rng).1 = k ∧
    (mctsLoop c_param fuel k (rootAfterPruning s) s rng).1.children ≠ [] := by
  obtain ⟨hv0, hc0⟩ := rootAfterPruning_visits_children s
  have hnt : ¬((rootAfterPruning s).untried_moves = [] ∧
      (rootAfterPruning s).children = []) := by
    intro hcon
    exact huntried hcon.1
  obtain ⟨hv, hs, hc⟩ := mctsLoop_stats c_param fuel k (rootAfterPruning s) s rng hnt
  refine ⟨?_, ?_, hc hk⟩
  · rw [hv, hv0]
    omega
  · rw [hs]
    unfold sumChildVisits
    rw [hc0]
    simp

/-- Witness for `mctsLoop_root_visit_counts` at the initial state with
budget 1. -/
theorem mctsLoop_root_visit_counts_witness :
    (rootAfterPruning Connect4.init).untried_moves ≠ [] ∧ 1 ≤ 1 ∧
    ((mctsLoop 1 43 1 (rootAfterPruning Connect4.init) Connect4.init []).1.visits = 1 ∧
     sumChildVisits (mctsLoop 1 43 1 (rootAfterPruning Connect4.init)
       Connect4.init []).1 = 1 ∧
     (mctsLoop 1 43 1 (rootAfterPruning Connect4.init) Connect4.init []).1.children ≠ []) :=
  ⟨by decide, by decide,
   mctsLoop_root_visit_counts 1 43 Connect4.init [] 1 (by decide) (by decide)⟩

/-- The tree invariant of claim C8: every node has at least as many visits as
children, recursively. -/
inductive TreeInv : MCTSNode → Prop where
  | mk (st : GameState) (mv : Option Int) (w : ℚ) (v : Nat) (ch : List MCTSNode)
      (un : List Int) (p : Cell) :
      ch.length ≤ v → (∀ c ∈ ch, TreeInv c) →
      TreeInv (MCTSNode.node st mv w v ch un p)

lemma treeInv_length {n : MCTSNode} (h : TreeInv n) :
    n.children.length ≤ n.visits := by
  cases h with
  | mk st mv w v ch un p hlen hch => exact hlen

lemma treeInv_children {n : MCTSNode} (h : TreeInv n) :
    ∀ c ∈ n.children, TreeInv c := by
  cases h with
  | mk st mv w v ch un p hlen hch => exact hch

lemma treeInv_intro (n : MCTSNode) (h1 : n.children.length ≤ n.visits)
    (h2 : ∀ c ∈ n.children, TreeInv c) : TreeInv n := by
  cases n with
  | node st mv w v ch un p => exact TreeInv.mk st mv w v ch un p h1 h2

lemma MCTSNode.sizeOf_pos (n : MCTSNode) : 0 < sizeOf n := by
  cases n
  simp only [MCTSNode.node.sizeOf_spec]
  omega

lemma simIter_preserves_TreeInv (c_param : ℝ) (fuel : Nat) :
    ∀ (N : Nat) (n : MCTSNode), sizeOf n ≤ N → TreeInv n →
      ∀ (state : GameState) (rng : List Nat),
        TreeInv (simIter c_param fuel n state rng).1 := by
  intro N
  induction N with
  | zero =>
      intro n hsz
      exact absurd hsz (by have := MCTSNode.sizeOf_pos n; omega)
  | succ N ih =>
      intro n hsz hinv state rng
      by_cases h : n.untried_moves = [] ∧ n.children ≠ []
      · have hi := uct_select_idx_lt c_param n h.2
        have hszc : sizeOf (n.children.get ⟨uct_select_idx c_param n, hi⟩) ≤ N := by
          have h1 := List.sizeOf_lt_of_mem
            (List.get_mem n.children (uct_select_idx c_param n) hi)
          have h2 := MCTSNode.sizeOf_children_lt n
          omega
        have hinvc : TreeInv (n.children.get ⟨uct_select_idx c_param n, hi⟩) :=
          treeInv_children hinv _ (List.get_mem _ _ _)
        have hrecinv := ih _ hszc hinvc
          (match (n.children.get ⟨uct_select_idx c_param n, hi⟩).move with
            | some m => (make_move state m).2
            | none => state) rng
        unfold simIter
        rw [if_pos h, dif_pos hi]
        rcases hrec : simIter c_param fuel
            (n.children.get ⟨uct_select_idx c_param n, hi⟩)
            (match (n.children.get ⟨uct_select_idx c_param n, hi⟩).move with
              | some m => (make_move state m).2
              | none => state) rng with ⟨c1, w, r1⟩
        rw [hrec] at hrecinv
        simp only [hrec]
        apply treeInv_intro
        · rw [MCTSNode.visits_updateWith, MCTSNode.children_updateWith,
            MCTSNode.children_setChildren, MCTSNode.visits_setChildren, List.length_set]
          have := treeInv_length hinv
          omega
        · intro c hc
          rw [MCTSNode.children_updateWith, MCTSNode.children_setChildren] at hc
          rcases List.mem_or_eq_of_mem_set hc with hmem | rfl
          · exact treeInv_children hinv c hmem
          · exact hrecinv
      · by_cases h2 : n.untried_moves ≠ []
        · unfold simIter
          rw [if_neg h, if_pos h2]
          rcases hnc : nextChoice rng with ⟨r, rng1⟩
          simp only [hnc]
          rcases hro : rollout fuel
              (make_move state (n.untried_moves.getD (r % n.untried_moves.length) 0)).2 rng1
            with ⟨stateF, rng2⟩
          simp only [hro]
          apply treeInv_intro
          · rw [MCTSNode.visits_updateWith, MCTSNode.children_updateWith,
              MCTSNode.children_setChildren, MCTSNode.visits_setChildren,
              MCTSNode.visits_setUntried, List.length_append]
            have := treeInv_length hinv
            simp only [List.length_cons, List.length_nil]
            omega
          · intro c hc
            rw [MCTSNode.children_updateWith, MCTSNode.children_setChildren] at hc
            rcases List.mem_append.1 hc with hmem | hmem
            · exact treeInv_children hinv c hmem
            · have hceq : c = (MCTSNode.init
                  (Connect4.copy (make_move state
                    (n.untried_moves.getD (r % n.untried_moves.length) 0)).2)
                  (some (n.untried_moves.getD (r % n.untried_moves.length) 0))).updateWith
                    (check_winstate stateF).1 := by
                simpa using hmem
              rw [hceq]
              apply treeInv_intro
              · rw [MCTSNode.visits_updateWith, MCTSNode.children_updateWith,
                  MCTSNode.children_init]
                simp
              · intro c2 hc2
                rw [MCTSNode.children_updateWith, MCTSNode.children_init] at hc2
                exact absurd hc2 (List.not_mem_nil c2)
        · unfold simIter
          rw [if_neg h, if_neg h2]
          rcases hro : rollout fuel state rng with ⟨stateF, rng2⟩
          simp only [hro]
          apply treeInv_intro
          · rw [MCTSNode.visits_updateWith, MCTSNode.children_updateWith]
            have := treeInv_length hinv
            omega
          · intro c hc
            rw [MCTSNode.children_updateWith] at hc
            exact treeInv_children hinv c hc

lemma mctsLoop_preserves_TreeInv (c_param : ℝ) (fuel : Nat) :
    ∀ (k : Nat) (n : MCTSNode) (rs : GameState) (rng : List Nat),
      TreeInv n → TreeInv (mctsLoop c_param fuel k n rs rng).1 := by
  intro k
  induction k with
  | zero => intro n rs rng h; exact h
  | succ k ih =>
      intro n rs rng h
      unfold mctsLoop
      rcases hsi : simIter c_param fuel n (Connect4.copy rs) rng with ⟨n1, w, rng1⟩
      simp only [hsi]
      have hinv1 := simIter_preserves_TreeInv c_param fuel (sizeOf n) n
        (Nat.le_refl _) h (Connect4.copy rs) rng
      rw [hsi] at hinv1
      exact ih n1 rs rng1 hinv1

/-- C8: the tree built by the main MCTS loop satisfies
`visits >= len(children)` at every node after every number of iterations
(the root starts with zero visits and no children, each expansion adds one
child to a node that is visited in the same backpropagation pass, and each
pass adds exactly one visit per path node). -/
theorem tree_invariant_holds (c_param : ℝ) (fuel k : Nat) (s rs : GameState)
    (rng : List Nat) :
    TreeInv (mctsLoop c_param fuel k (rootAfterPruning s) rs rng).1 := by
  apply mctsLoop_preserves_TreeInv
  obtain ⟨hv, hc⟩ := rootAfterPruning_visits_children s
  apply treeInv_intro
  · rw [hv, hc]
    simp
  · intro c hcmem
    rw [hc] at hcmem
    exact absurd hcmem (List.not_mem_nil c)

/-- C3 (bug demonstration): the rollout loop's only guard is the working
state's `game_over` flag, which `make_move` never sets when a move completes
a four-in-a-row.  `stateWonR` is produced purely by `make_move` calls — the
same calls the selection and expansion phases apply to the working copy — so
its board already holds Red's winning line while `game_over` is still
`False`.  Entering the rollout there applies one more random move to the
already-won position (the turn index advances and the board changes) before
`_check_winstate` finally flags the game as over. -/
theorem rollout_moves_on_won_state :
    check_win_on_board stateWonR.board = some Cell.R ∧
    stateWonR.game_over = false ∧
    get_available_moves stateWonR.board ≠ [] ∧
    (rollout 1 stateWonR [0]).1.current_turn = stateWonR.current_turn + 1 ∧
    (rollout 1 stateWonR [0]).1.board ≠ stateWonR.board := by
  decide
